import Mathlib

/-!
# Verification of the `cache.js` TTL cache module

A shallow embedding of `src/js/cache.js` (the `CacheManager` class backed by
`localStorage` and `JSON.stringify` / `JSON.parse`), together with proofs of
the specified properties of its public operations
(`set`, `get`, `remove`, `clear`, `getStats`, `isAvailable`).

The host environment is modelled explicitly:

* `localStorage` is an association list of string keys to string values,
  with a fault configuration saying which primitive operations throw;
* `Date.now()` is a parameter `now : Int` (integer milliseconds);
* `JSON.stringify` / `JSON.parse` are implemented concretely over a JSON
  value type whose numbers are integers (the module only ever writes integer
  timestamps and ttls); `JSON.parse` is a recursive-descent parser for the
  canonical output format of the stringifier.
-/

set_option maxHeartbeats 1000000

namespace CacheSpec

/-! ## JSON values

JS values reachable through `JSON.parse` / produced by `JSON.stringify`.
Numbers are modelled as integers. Mutual inductives (rather than a nested
`List`) keep the recursion in the serializer, the parser and the proofs
structural. -/

mutual

inductive Json where
| null : Json
| bool (b : Bool) : Json
| num (n : Int) : Json
| str (s : List Char) : Json
| arr (xs : JsonArr) : Json
| obj (fs : JsonObj) : Json
deriving DecidableEq

inductive JsonArr where
| nil : JsonArr
| cons (hd : Json) (tl : JsonArr) : JsonArr
deriving DecidableEq

inductive JsonObj where
| nil : JsonObj
| cons (k : List Char) (v : Json) (tl : JsonObj) : JsonObj
deriving DecidableEq

end

/-! ## JSON.stringify

Decimal printing of naturals and integers, string escaping, and the
serializer itself, producing exactly what `JSON.stringify` produces on
these values (no whitespace, fields in insertion order). -/

/-- The decimal digit character for `d < 10`. -/
def digitChar (d : Nat) : Char := Char.ofNat (48 + d)

/-- Decimal digits of a natural number, most significant first. -/
def natChars (n : Nat) : List Char :=
  if _h : n < 10 then [digitChar n]
  else natChars (n / 10) ++ [digitChar (n % 10)]
  decreasing_by exact Nat.div_lt_self (by omega) (by omega)

/-- Decimal representation of an integer, `-` sign for negatives. -/
def intChars (n : Int) : List Char :=
  if n < 0 then '-' :: natChars (-n).toNat else natChars n.toNat

/-- JSON string escaping: `"` and `\` get a backslash, everything else is
literal. -/
def escapeChars : List Char → List Char
| [] => []
| c :: cs =>
  if c = '"' ∨ c = '\\' then '\\' :: c :: escapeChars cs
  else c :: escapeChars cs

mutual

/-- `JSON.stringify` on a value. -/
def stringifyV : Json → List Char
| .null => 'n' :: 'u' :: 'l' :: 'l' :: []
| .bool true => 't' :: 'r' :: 'u' :: 'e' :: []
| .bool false => 'f' :: 'a' :: 'l' :: 's' :: 'e' :: []
| .num n => intChars n
| .str s => '"' :: escapeChars s ++ ['"']
| .arr .nil => ['[', ']']
| .arr (.cons x xs) => '[' :: (stringifyV x ++ stringifyArrTail xs)
| .obj .nil => ['{', '}']
| .obj (.cons k v fs) =>
  '{' :: ('"' :: escapeChars k ++ ['"', ':'] ++ stringifyV v ++ stringifyObjTail fs)

/-- Serialization of the rest of an array, after its first element:
`,e₂,…,eₙ]`. -/
def stringifyArrTail : JsonArr → List Char
| .nil => [']']
| .cons x xs => ',' :: (stringifyV x ++ stringifyArrTail xs)

/-- Serialization of the rest of an object, after its first member:
`,"k₂":v₂,…,"kₙ":vₙ}`. -/
def stringifyObjTail : JsonObj → List Char
| .nil => ['}']
| .cons k v fs => ',' :: ('"' :: escapeChars k ++ ['"', ':'] ++ stringifyV v ++ stringifyObjTail fs)

end

/-- `JSON.stringify` as a `String → String`-level function. -/
def stringify (v : Json) : String := ⟨stringifyV v⟩

/-! ## JSON.parse

A fuel-indexed recursive-descent parser for the canonical format above.
`parseV fuel cs` returns the parsed value and the unconsumed suffix. -/

/-- Numeric value of a (little-endian-folded) list of decimal digits. -/
def digitsVal (cs : List Char) : Nat :=
  cs.foldl (fun acc c => acc * 10 + (c.toNat - 48)) 0

/-- Split off a maximal prefix of decimal digits. -/
def takeDigits : List Char → (List Char × List Char)
| [] => ([], [])
| c :: cs =>
  if c.isDigit then
    let r := takeDigits cs
    (c :: r.1, r.2)
  else ([], c :: cs)

/-- Parse the body of a string literal (the opening quote already consumed):
unescapes `\c` to `c`, stops at an unescaped `"`. -/
def parseStrChars : List Char → Option (List Char × List Char)
| [] => none
| '\\' :: c :: cs => (parseStrChars cs).map (fun r => (c :: r.1, r.2))
| c :: cs =>
  if c = '"' then some ([], cs)
  else (parseStrChars cs).map (fun r => (c :: r.1, r.2))

/-- Parse a non-empty digit string into a natural number. -/
def parseNat (cs : List Char) : Option (Nat × List Char) :=
  match takeDigits cs with
  | ([], _) => none
  | (ds, rest) => some (digitsVal ds, rest)

mutual

/-- Parse one JSON value from the front of the input. -/
def parseV : Nat → List Char → Option (Json × List Char)
| 0, _ => none
| _ + 1, [] => none
| fuel + 1, c :: cs =>
  if c = '-' then (parseNat cs).map (fun r => (.num (-(r.1 : Int)), r.2))
  else if c.isDigit then (parseNat (c :: cs)).map (fun r => (.num (r.1 : Int), r.2))
  else if c = '"' then (parseStrChars cs).map (fun r => (.str r.1, r.2))
  else if c = '[' then
    match cs with
    | ']' :: rest2 => some (.arr .nil, rest2)
    | _ =>
      match parseV fuel cs with
      | some (v, rest2) =>
        match parseArrTail fuel rest2 with
        | some (vs, rest3) => some (.arr (.cons v vs), rest3)
        | none => none
      | none => none
  else if c = '{' then
    match cs with
    | '}' :: rest2 => some (.obj .nil, rest2)
    | '"' :: rest2 =>
      match parseStrChars rest2 with
      | some (k, ':' :: rest3) =>
        match parseV fuel rest3 with
        | some (v, rest4) =>
          match parseObjTail fuel rest4 with
          | some (fs, rest5) => some (.obj (.cons k v fs), rest5)
          | none => none
        | none => none
      | _ => none
    | _ => none
  else
    match c :: cs with
    | 'n' :: 'u' :: 'l' :: 'l' :: rest => some (.null, rest)
    | 't' :: 'r' :: 'u' :: 'e' :: rest => some (.bool true, rest)
    | 'f' :: 'a' :: 'l' :: 's' :: 'e' :: rest => some (.bool false, rest)
    | _ => none

/-- Parse the rest of an array after a complete element: `]` ends it,
`,` is followed by another element. -/
def parseArrTail : Nat → List Char → Option (JsonArr × List Char)
| 0, _ => none
| _ + 1, [] => none
| fuel + 1, c :: cs =>
  if c = ']' then some (.nil, cs)
  else if c = ',' then
    match parseV fuel cs with
    | some (v, rest2) =>
      match parseArrTail fuel rest2 with
      | some (vs, rest3) => some (.cons v vs, rest3)
      | none => none
    | none => none
  else none

/-- Parse the rest of an object after a complete member. -/
def parseObjTail : Nat → List Char → Option (JsonObj × List Char)
| 0, _ => none
| _ + 1, [] => none
| fuel + 1, c :: cs =>
  if c = '}' then some (.nil, cs)
  else if c = ',' then
    match cs with
    | '"' :: rest =>
      match parseStrChars rest with
      | some (k, ':' :: rest2) =>
        match parseV fuel rest2 with
        | some (v, rest3) =>
          match parseObjTail fuel rest3 with
          | some (fs, rest4) => some (.cons k v fs, rest4)
          | none => none
        | none => none
      | _ => none
    | _ => none
  else none

end

/-- `JSON.parse`: parse the whole string as one value; any failure or
trailing garbage is a thrown `SyntaxError`, modelled as `none`. -/
def parse (s : String) : Option Json :=
  match parseV (s.data.length + 1) s.data with
  | some (v, []) => some v
  | _ => none

/-- The continuation after a serialized number never starts with a digit
(it is empty or starts with `,`, `]`, `}`). -/
def noDigitHead : List Char → Prop
| [] => True
| c :: _ => c.isDigit = false

mutual

/-- Fuel sufficient for `parseV` to parse the serialization of a value. -/
def fuelV : Json → Nat
| .null => 1
| .bool _ => 1
| .num _ => 1
| .str _ => 1
| .arr .nil => 1
| .arr (.cons x xs) => 1 + fuelV x + fuelA xs
| .obj .nil => 1
| .obj (.cons _ v fs) => 1 + fuelV v + fuelO fs

/-- Fuel sufficient for `parseArrTail` on a serialized array tail. -/
def fuelA : JsonArr → Nat
| .nil => 1
| .cons x xs => 1 + fuelV x + fuelA xs

/-- Fuel sufficient for `parseObjTail` on a serialized object tail. -/
def fuelO : JsonObj → Nat
| .nil => 1
| .cons _ v fs => 1 + fuelV v + fuelO fs

end

/-! ## The localStorage substrate

`localStorage` is a key-value store of strings, modelled as an association
list (`Object.keys` enumerates in insertion order; an overwrite keeps the
key's position).  A `Faults` configuration says which primitive calls throw
(quota exhaustion, disabled storage, ...); a throwing `setItem` leaves the
store unchanged. -/

structure LocalStorage where
  entries : List (String × String)
deriving DecidableEq

/-- Which storage primitives throw, per key (and value, for writes). -/
structure Faults where
  setItemFails : String → String → Bool
  getItemFails : String → Bool
  removeItemFails : String → Bool
  keysFails : Bool

/-- The fault-free storage substrate. -/
def noFaults : Faults :=
  ⟨fun _ _ => false, fun _ => false, fun _ => false, false⟩

def lsKeys (st : LocalStorage) : List String := st.entries.map Prod.fst

def lsLookup (st : LocalStorage) (k : String) : Option String :=
  (st.entries.find? (fun p => p.1 = k)).map Prod.snd

def lsInsert (st : LocalStorage) (k v : String) : LocalStorage :=
  if st.entries.any (fun p => p.1 = k) then
    ⟨st.entries.map (fun p => if p.1 = k then (k, v) else p)⟩
  else ⟨st.entries ++ [(k, v)]⟩

def lsErase (st : LocalStorage) (k : String) : LocalStorage :=
  ⟨st.entries.filter (fun p => p.1 ≠ k)⟩

/-- `localStorage.setItem`, which can throw (e.g. quota exceeded). -/
def setItem (f : Faults) (st : LocalStorage) (k v : String) : Except Unit LocalStorage :=
  if f.setItemFails k v then .error () else .ok (lsInsert st k v)

/-- `localStorage.getItem`: `null` (here `none`) for a missing key. -/
def getItem (f : Faults) (st : LocalStorage) (k : String) : Except Unit (Option String) :=
  if f.getItemFails k then .error () else .ok (lsLookup st k)

/-- `localStorage.removeItem`. -/
def removeItem (f : Faults) (st : LocalStorage) (k : String) : Except Unit LocalStorage :=
  if f.removeItemFails k then .error () else .ok (lsErase st k)

/-- `Object.keys(localStorage)`. -/
def objectKeys (f : Faults) (st : LocalStorage) : Except Unit (List String) :=
  if f.keysFails then .error () else .ok (lsKeys st)

/-! ## JS value semantics used by the cache's expiry check

`get`/`getStats` compute `now - entry.timestamp > entry.ttl` on whatever
`JSON.parse` produced.  Property access on a non-object yields `undefined`
(and throws only on `null`); `-` and `>` coerce via `ToNumber`, where any
`NaN` operand makes the comparison false.  `ToNumber` is modelled exactly
for all values the module itself writes (integers), and for strings it
recognises optionally-signed decimal integer literals (matching JS there;
non-integer numeric strings are outside the integer-valued model). -/

/-- A JS value as seen by property access: a JSON value or `undefined`. -/
inductive JsVal where
| undef : JsVal
| val (v : Json) : JsVal
deriving DecidableEq

/-- Property lookup in a parsed object: JS object semantics keep the last
of duplicate keys assigned by `JSON.parse`. -/
def objField : JsonObj → String → JsVal
| .nil, _ => JsVal.undef
| .cons k v fs, name =>
  match objField fs name with
  | JsVal.undef => if k = name.data then .val v else JsVal.undef
  | r => r

/-- `entry.<name>` for the non-special names `data`, `timestamp`, `ttl`:
`undefined` on every non-object (access on `null` throws and is handled at
the call sites). -/
def getField : Json → String → JsVal
| .obj fs, name => objField fs name
| _, _ => JsVal.undef

/-- JS whitespace trimmed by `ToNumber` on strings. -/
def isSpaceChar (c : Char) : Bool :=
  c = ' ' ∨ c = '\t' ∨ c = '\n' ∨ c = '\r'

/-- `ToNumber` on a string: trimmed empty string is 0; an optionally signed
decimal integer literal is its value; anything else is `NaN` (`none`). -/
def strToNumber (cs : List Char) : Option Int :=
  let t := ((cs.dropWhile isSpaceChar).reverse.dropWhile isSpaceChar).reverse
  match t with
  | [] => some 0
  | '-' :: ds =>
    if ds ≠ [] ∧ ds.all Char.isDigit then some (-(digitsVal ds : Int)) else none
  | '+' :: ds =>
    if ds ≠ [] ∧ ds.all Char.isDigit then some ((digitsVal ds : Int)) else none
  | ds =>
    if ds.all Char.isDigit then some ((digitsVal ds : Int)) else none

mutual

/-- `String(x)` for an array element during `Array.prototype.toString`:
`null` becomes empty, arrays join recursively, objects print as
`[object Object]`. -/
def elemToString : Json → List Char
| .null => []
| .bool true => 't' :: 'r' :: 'u' :: 'e' :: []
| .bool false => 'f' :: 'a' :: 'l' :: 's' :: 'e' :: []
| .num n => intChars n
| .str s => s
| .arr xs => arrToString xs
| .obj _ => ('[' :: "object Object]".data)

/-- `Array.prototype.toString`: elements joined with `,`. -/
def arrToString : JsonArr → List Char
| .nil => []
| .cons x .nil => elemToString x
| .cons x xs => elemToString x ++ ',' :: arrToString xs

end

/-- JS `ToNumber`, with `none` as `NaN`. -/
def toNumber : JsVal → Option Int
| JsVal.undef => none
| .val .null => some 0
| .val (.bool b) => some (if b then 1 else 0)
| .val (.num n) => some n
| .val (.str s) => strToNumber s
| .val (.arr xs) => strToNumber (arrToString xs)
| .val (.obj _) => none

/-- The module's expiry test `now - entry.timestamp > entry.ttl`:
false whenever either side coerces to `NaN`. -/
def expiredCheck (now : Int) (ts ttl : JsVal) : Bool :=
  match toNumber ts, toNumber ttl with
  | some t, some l => decide (now - t > l)
  | _, _ => false

/-! ## The cache module (`CacheManager` in `cache.js`)

Every operation takes the fault configuration, the store, and (where the
source calls `Date.now()`) the current time, and returns its JS result
together with the possibly updated store. -/

/-- `String.prototype.startsWith`, implemented on the character list so
that it computes by kernel reduction. -/
def jsStartsWith (s pre : String) : Bool := pre.data.isPrefixOf s.data

/-- The namespaced storage key: `` `cache_${key}` ``. -/
def nsKey (key : String) : String := "cache_" ++ key

/-- The probe key used by `isAvailable`. -/
def testKey : String := "__cache_test__"

/-- The entry object `{data, timestamp: Date.now(), ttl}` built by `set`. -/
def entryJson (data : Json) (now ttl : Int) : Json :=
  .obj (.cons "data".data data
    (.cons "timestamp".data (.num now)
      (.cons "ttl".data (.num ttl) .nil)))

namespace CacheManager

/-- `CacheManager.set`: serialize `{data, timestamp, ttl}` under the
namespaced key; a throw from the storage write is caught and reported as
`false`. -/
def set (f : Faults) (st : LocalStorage) (now : Int) (key : String)
    (data : Json) (ttl : Int) : Bool × LocalStorage :=
  match setItem f st (nsKey key) (stringify (entryJson data now ttl)) with
  | .ok st2 => (true, st2)
  | .error _ => (false, st)

/-- `CacheManager.remove`: delete the namespaced entry; a throw is caught
and swallowed. -/
def remove (f : Faults) (st : LocalStorage) (key : String) : LocalStorage :=
  match removeItem f st (nsKey key) with
  | .ok st2 => st2
  | .error _ => st

/-- `CacheManager.get`: read, parse and expiry-check the namespaced entry.
The result is the JS return value (`null` for a miss) plus the store.
Any throw (storage read, `JSON.parse`, property access on a parsed `null`)
lands in the catch block, which removes the entry and returns `null`;
an expired entry is likewise removed. An empty stored string is falsy, so
it returns `null` early, without removal. -/
def get (f : Faults) (st : LocalStorage) (now : Int) (key : String) :
    JsVal × LocalStorage :=
  match getItem f st (nsKey key) with
  | .error _ => (.val .null, remove f st key)
  | .ok none => (.val .null, st)
  | .ok (some cached) =>
    if cached = "" then (.val .null, st)
    else
      match parse cached with
      | none => (.val .null, remove f st key)
      | some .null => (.val .null, remove f st key)
      | some entry =>
        if expiredCheck now (getField entry "timestamp") (getField entry "ttl") then
          (.val .null, remove f st key)
        else (getField entry "data", st)

/-- The `forEach` body of `clear`: remove each namespaced key; a throw
escapes the loop into `clear`'s catch, abandoning the rest. -/
def clearLoop (f : Faults) : List String → LocalStorage → LocalStorage
| [], st => st
| k :: ks, st =>
  if jsStartsWith k "cache_" then
    match removeItem f st k with
    | .ok st2 => clearLoop f ks st2
    | .error _ => st
  else clearLoop f ks st

/-- `CacheManager.clear`: enumerate all keys, delete those with the cache
namespace. A throw from the enumeration itself is caught and swallowed. -/
def clear (f : Faults) (st : LocalStorage) : LocalStorage :=
  match objectKeys f st with
  | .error _ => st
  | .ok keys => clearLoop f keys st

/-- The statistics record returned by `getStats`.  `totalSizeKBHundredths`
models the source's `(totalSize / 1024).toFixed(2)` as the size in
hundredths of a KB, rounded to nearest. -/
structure Stats where
  totalEntries : Nat
  validEntries : Nat
  expiredEntries : Nat
  totalSizeBytes : Nat
  totalSizeKBHundredths : Nat
deriving DecidableEq

/-- Classification of one stored value by `getStats`'s inner `try`:
`some true` counts valid, `some false` counts expired, `none` means the
inner block threw (unparseable value, or parsed `null` whose property
access throws) and the entry is silently skipped. -/
def classifyValid (now : Int) (value : Option String) : Option Bool :=
  match value with
  | none => none
  | some s =>
    match parse s with
    | none => none
    | some .null => none
    | some entry =>
      if expiredCheck now (getField entry "timestamp") (getField entry "ttl")
      then some false else some true

/-- The length contribution of one stored value: `value ? value.length : 0`
(string length in characters; the model does not distinguish UTF-16
code units). -/
def sizeOfValue : Option String → Nat
| none => 0
| some s => s.length

/-- The `forEach` accumulation of `getStats` over the namespaced keys:
total serialized size, valid count, expired count. A storage read fault
escapes to `getStats`'s catch. -/
def statsLoop (f : Faults) (st : LocalStorage) (now : Int) :
    List String → Nat → Nat → Nat → Except Unit (Nat × Nat × Nat)
| [], size, valid, expired => .ok (size, valid, expired)
| k :: ks, size, valid, expired =>
  match getItem f st k with
  | .error _ => .error ()
  | .ok value =>
    match classifyValid now value with
    | some true => statsLoop f st now ks (size + sizeOfValue value) (valid + 1) expired
    | some false => statsLoop f st now ks (size + sizeOfValue value) valid (expired + 1)
    | none => statsLoop f st now ks (size + sizeOfValue value) valid expired

/-- `CacheManager.getStats`: enumerate the namespaced keys and classify
each entry, without modifying the store; any throw yields `null`
(`none`). -/
def getStats (f : Faults) (st : LocalStorage) (now : Int) : Option Stats :=
  match objectKeys f st with
  | .error _ => none
  | .ok keys =>
    let cacheKeys := keys.filter (fun k => jsStartsWith k "cache_")
    match statsLoop f st now cacheKeys 0 0 0 with
    | .error _ => none
    | .ok (size, valid, expired) =>
      some ⟨cacheKeys.length, valid, expired, size, (size * 100 + 512) / 1024⟩

/-- `CacheManager.isAvailable`: write-then-delete probe on `testKey`;
any throw is caught and reported as `false`. -/
def isAvailable (f : Faults) (st : LocalStorage) : Bool × LocalStorage :=
  match setItem f st testKey testKey with
  | .error _ => (false, st)
  | .ok st2 =>
    match removeItem f st2 testKey with
    | .error _ => (false, st2)
    | .ok st3 => (true, st3)

end CacheManager

/-! ## Derived counting functions

Reference expressions for what `getStats` computes over a fault-free
store: the namespaced keys, and the number of them whose stored value the
diagnostic pass classifies as valid resp. expired. -/

/-- The keys of the store carrying the cache namespace. -/
def cacheKeysOf (st : LocalStorage) : List String :=
  (lsKeys st).filter (fun k => jsStartsWith k "cache_")

/-- How many namespaced entries the diagnostic pass counts as valid. -/
def validCount (st : LocalStorage) (now : Int) : Nat :=
  (cacheKeysOf st).countP
    (fun k => decide (CacheManager.classifyValid now (lsLookup st k) = some true))

/-- How many namespaced entries the diagnostic pass counts as expired. -/
def expiredCount (st : LocalStorage) (now : Int) : Nat :=
  (cacheKeysOf st).countP
    (fun k => decide (CacheManager.classifyValid now (lsLookup st k) = some false))

/-- Total serialized size of the namespaced entries. -/
def sizeSum (st : LocalStorage) : Nat :=
  ((cacheKeysOf st).map (fun k => CacheManager.sizeOfValue (lsLookup st k))).sum

/-! ## Round-trip: `parse (stringify v) = some v` -/

theorem digitChar_isDigit {d : Nat} (h : d < 10) : (digitChar d).isDigit = true := by
  interval_cases d <;> decide

theorem digitChar_toNat {d : Nat} (h : d < 10) : (digitChar d).toNat = 48 + d := by
  interval_cases d <;> decide

theorem natChars_isDigit : ∀ n c, c ∈ natChars n → c.isDigit = true := by
  intro n
  induction n using Nat.strong_induction_on with
  | _ n ih =>
    intro c hc
    rw [natChars] at hc
    split at hc
    · next h =>
      simp only [List.mem_singleton] at hc
      exact hc ▸ digitChar_isDigit h
    · next h =>
      rcases List.mem_append.mp hc with h1 | h2
      · exact ih (n / 10) (Nat.div_lt_self (by omega) (by omega)) c h1
      · simp only [List.mem_singleton] at h2
        exact h2 ▸ digitChar_isDigit (Nat.mod_lt _ (by omega))

theorem natChars_ne_nil (n : Nat) : natChars n ≠ [] := by
  rw [natChars]
  split <;> simp

theorem digitsVal_append_one (ds : List Char) (c : Char) :
    digitsVal (ds ++ [c]) = digitsVal ds * 10 + (c.toNat - 48) := by
  simp [digitsVal, List.foldl_append]

theorem digitsVal_natChars : ∀ n, digitsVal (natChars n) = n := by
  intro n
  induction n using Nat.strong_induction_on with
  | _ n ih =>
    rw [natChars]
    split
    · next h =>
      simp [digitsVal, digitChar_toNat h]
    · next h =>
      rw [digitsVal_append_one, ih (n / 10) (Nat.div_lt_self (by omega) (by omega)),
        digitChar_toNat (Nat.mod_lt _ (by omega))]
      omega

theorem takeDigits_append (ds rest : List Char)
    (h1 : ∀ c ∈ ds, c.isDigit = true) (h2 : noDigitHead rest) :
    takeDigits (ds ++ rest) = (ds, rest) := by
  induction ds with
  | nil =>
    cases rest with
    | nil => rfl
    | cons c cs =>
      simp only [noDigitHead] at h2
      simp [takeDigits, h2]
  | cons c cs ih =>
    have hc : c.isDigit = true := h1 c (by simp)
    simp only [List.cons_append, takeDigits, hc, if_true, List.append_eq]
    rw [ih (fun x hx => h1 x (by simp [hx]))]

theorem parseNat_natChars (n : Nat) (rest : List Char) (h : noDigitHead rest) :
    parseNat (natChars n ++ rest) = some (n, rest) := by
  rw [parseNat, takeDigits_append _ _ (natChars_isDigit n) h]
  cases hd : natChars n with
  | nil => exact absurd hd (natChars_ne_nil n)
  | cons a as =>
    show some (digitsVal (a :: as), rest) = some (n, rest)
    rw [← hd, digitsVal_natChars]

theorem parseStrChars_escape : ∀ s rest,
    parseStrChars (escapeChars s ++ '"' :: rest) = some (s, rest) := by
  intro s
  induction s with
  | nil => intro rest; rfl
  | cons c cs ih =>
    intro rest
    by_cases hc : c = '"' ∨ c = '\\'
    · simp [escapeChars, if_pos hc, List.cons_append, parseStrChars, ih]
    · push_neg at hc
      simp only [escapeChars, if_neg (by tauto : ¬(c = '"' ∨ c = '\\')), List.cons_append]
      rw [parseStrChars.eq_def]
      split
      · rename_i heq
        exact absurd heq (by simp)
      · rename_i c2 cs2 heq
        exfalso
        apply hc.2
        injection heq
      · rename_i c2 cs2 hno heq
        injection heq with he1 he2
        subst he1
        rw [← he2, if_neg hc.1, ih]
        simp

theorem isDigit_ne {c : Char} (h : c.isDigit = true) :
    c ≠ '-' ∧ c ≠ '"' ∧ c ≠ '[' ∧ c ≠ '{' ∧ c ≠ ']' ∧ c ≠ '}' ∧ c ≠ ',' := by
  refine ⟨?_, ?_, ?_, ?_, ?_, ?_, ?_⟩ <;> (intro he; subst he; simp [Char.isDigit] at h)

theorem fuelV_pos (v : Json) : 1 ≤ fuelV v := by
  cases v with
  | arr xs => cases xs <;> simp [fuelV] <;> omega
  | obj fs => cases fs <;> simp [fuelV] <;> omega
  | null => simp [fuelV]
  | bool b => simp [fuelV]
  | num n => simp [fuelV]
  | str s => simp [fuelV]

theorem fuelA_pos (xs : JsonArr) : 1 ≤ fuelA xs := by
  cases xs <;> simp [fuelA] <;> omega

theorem fuelO_pos (fs : JsonObj) : 1 ≤ fuelO fs := by
  cases fs <;> simp [fuelO] <;> omega

/-- The serialization of any value is non-empty, and its head is neither
`]` nor `}` (so tail parsers never mistake it for a closing bracket). -/
theorem stringifyV_head (v : Json) :
    ∃ c cs, stringifyV v = c :: cs ∧ c ≠ ']' ∧ c ≠ '}' := by
  cases v with
  | null => exact ⟨'n', _, rfl, by decide, by decide⟩
  | bool b =>
    cases b
    · exact ⟨'f', _, rfl, by decide, by decide⟩
    · exact ⟨'t', _, rfl, by decide, by decide⟩
  | num n =>
    rw [show stringifyV (.num n) = intChars n from rfl, intChars]
    split
    · exact ⟨'-', _, rfl, by decide, by decide⟩
    · cases hd : natChars n.toNat with
      | nil => exact absurd hd (natChars_ne_nil _)
      | cons a as =>
        have ha : a.isDigit = true := natChars_isDigit _ a (by rw [hd]; simp)
        exact ⟨a, as, rfl, (isDigit_ne ha).2.2.2.2.1, (isDigit_ne ha).2.2.2.2.2.1⟩
  | str s => exact ⟨'"', _, rfl, by decide, by decide⟩
  | arr xs =>
    cases xs
    · exact ⟨'[', _, rfl, by decide, by decide⟩
    · exact ⟨'[', _, rfl, by decide, by decide⟩
  | obj fs =>
    cases fs
    · exact ⟨'{', _, rfl, by decide, by decide⟩
    · exact ⟨'{', _, rfl, by decide, by decide⟩

theorem noDigitHead_arrTail (xs : JsonArr) (rest : List Char) :
    noDigitHead (stringifyArrTail xs ++ rest) := by
  cases xs <;> simp [stringifyArrTail, noDigitHead, Char.isDigit]

theorem noDigitHead_objTail (fs : JsonObj) (rest : List Char) :
    noDigitHead (stringifyObjTail fs ++ rest) := by
  cases fs <;> simp [stringifyObjTail, noDigitHead, Char.isDigit]

/-- One unfolding step of `parseV` on input starting with `[`. -/
theorem parseV_lbrack (fuel : Nat) (cs : List Char) :
    parseV (fuel + 1) ('[' :: cs) =
      match cs with
      | ']' :: rest2 => some (.arr .nil, rest2)
      | _ =>
        match parseV fuel cs with
        | some (v, rest2) =>
          match parseArrTail fuel rest2 with
          | some (vs, rest3) => some (.arr (.cons v vs), rest3)
          | none => none
        | none => none := rfl

mutual

/-- Round-trip: the value parser inverts the serializer, given enough fuel
and a continuation that does not start with a digit. -/
theorem parseV_stringify : ∀ (v : Json) (fuel : Nat) (rest : List Char),
    fuelV v ≤ fuel → noDigitHead rest →
    parseV fuel (stringifyV v ++ rest) = some (v, rest)
| v, 0, _ => by
  intro h _
  exact absurd (le_trans (fuelV_pos v) h) (by omega)
| .null, fuel + 1, rest => by
  intro _ _
  simp [stringifyV, parseV]
| .bool true, fuel + 1, rest => by
  intro _ _
  simp [stringifyV, parseV]
| .bool false, fuel + 1, rest => by
  intro _ _
  simp [stringifyV, parseV]
| .num n, fuel + 1, rest => by
  intro _ hrest
  rw [show stringifyV (.num n) = intChars n from rfl, intChars]
  split
  · next hn =>
    have h1 := parseNat_natChars (-n).toNat rest hrest
    simp [parseV, h1]
    omega
  · next hn =>
    cases hd : natChars n.toNat with
    | nil => exact absurd hd (natChars_ne_nil _)
    | cons a as =>
      have ha : a.isDigit = true := natChars_isDigit _ a (by rw [hd]; simp)
      have h1 := parseNat_natChars n.toNat rest hrest
      rw [hd] at h1
      simp only [List.cons_append] at h1
      simp [parseV, (isDigit_ne ha).1, ha, h1]
      omega
| .str s, fuel + 1, rest => by
  intro _ _
  have h1 := parseStrChars_escape s rest
  simp [stringifyV, parseV, h1]
| .arr .nil, fuel + 1, rest => by
  intro _ _
  simp [stringifyV, parseV]
| .arr (.cons x xs), fuel + 1, rest => by
  intro hfuel hrest
  have hfx : fuelV x ≤ fuel := by simp [fuelV] at hfuel; omega
  have hfxs : fuelA xs ≤ fuel := by simp [fuelV] at hfuel; omega
  have hv := parseV_stringify x fuel (stringifyArrTail xs ++ rest) hfx
    (noDigitHead_arrTail xs rest)
  have ht := parseArrTail_stringify xs fuel rest hfxs hrest
  obtain ⟨c, cs, heq, hc1, _⟩ := stringifyV_head x
  simp only [heq, List.cons_append] at hv
  simp only [stringifyV, List.cons_append, List.append_assoc]
  rw [parseV_lbrack, heq]
  simp only [List.cons_append]
  split
  · next rest2 heq2 =>
    exact absurd (by injection heq2) hc1
  · simp [hv, ht]
| .obj .nil, fuel + 1, rest => by
  intro _ _
  simp [stringifyV, parseV]
| .obj (.cons k v fs), fuel + 1, rest => by
  intro hfuel hrest
  have hfv : fuelV v ≤ fuel := by simp [fuelV] at hfuel; omega
  have hffs : fuelO fs ≤ fuel := by simp [fuelV] at hfuel; omega
  have hk := parseStrChars_escape k
    (':' :: (stringifyV v ++ (stringifyObjTail fs ++ rest)))
  have hv := parseV_stringify v fuel (stringifyObjTail fs ++ rest) hfv
    (noDigitHead_objTail fs rest)
  have ht := parseObjTail_stringify fs fuel rest hffs hrest
  simp [stringifyV, parseV, hk, hv, ht]

/-- Round-trip for serialized array tails. -/
theorem parseArrTail_stringify : ∀ (xs : JsonArr) (fuel : Nat) (rest : List Char),
    fuelA xs ≤ fuel → noDigitHead rest →
    parseArrTail fuel (stringifyArrTail xs ++ rest) = some (xs, rest)
| xs, 0, _ => by
  intro h _
  exact absurd (le_trans (fuelA_pos xs) h) (by omega)
| .nil, fuel + 1, rest => by
  intro _ _
  simp [stringifyArrTail, parseArrTail]
| .cons x xs, fuel + 1, rest => by
  intro hfuel hrest
  have hfx : fuelV x ≤ fuel := by simp [fuelA] at hfuel; omega
  have hfxs : fuelA xs ≤ fuel := by simp [fuelA] at hfuel; omega
  have hv := parseV_stringify x fuel (stringifyArrTail xs ++ rest) hfx
    (noDigitHead_arrTail xs rest)
  have ht := parseArrTail_stringify xs fuel rest hfxs hrest
  simp [stringifyArrTail, parseArrTail, hv, ht]

/-- Round-trip for serialized object tails. -/
theorem parseObjTail_stringify : ∀ (fs : JsonObj) (fuel : Nat) (rest : List Char),
    fuelO fs ≤ fuel → noDigitHead rest →
    parseObjTail fuel (stringifyObjTail fs ++ rest) = some (fs, rest)
| fs, 0, _ => by
  intro h _
  exact absurd (le_trans (fuelO_pos fs) h) (by omega)
| .nil, fuel + 1, rest => by
  intro _ _
  simp [stringifyObjTail, parseObjTail]
| .cons k v fs, fuel + 1, rest => by
  intro hfuel hrest
  have hfv : fuelV v ≤ fuel := by simp [fuelO] at hfuel; omega
  have hffs : fuelO fs ≤ fuel := by simp [fuelO] at hfuel; omega
  have hk := parseStrChars_escape k
    (':' :: (stringifyV v ++ (stringifyObjTail fs ++ rest)))
  have hv := parseV_stringify v fuel (stringifyObjTail fs ++ rest) hfv
    (noDigitHead_objTail fs rest)
  have ht := parseObjTail_stringify fs fuel rest hffs hrest
  simp [stringifyObjTail, parseObjTail, hk, hv, ht]

end

mutual

/-- The fuel needed to parse a serialized value is at most its length. -/
theorem fuelV_le_length : ∀ v : Json, fuelV v ≤ (stringifyV v).length
| .null => by simp [fuelV, stringifyV]
| .bool true => by simp [fuelV, stringifyV]
| .bool false => by simp [fuelV, stringifyV]
| .num n => by
  have h := natChars_ne_nil n.toNat
  have h2 := natChars_ne_nil (-n).toNat
  simp only [fuelV, stringifyV, intChars]
  split
  · simp
  · exact le_trans (by omega) (List.length_pos.mpr h)
| .str s => by simp [fuelV, stringifyV]
| .arr .nil => by simp [fuelV, stringifyV]
| .arr (.cons x xs) => by
  have h1 := fuelV_le_length x
  have h2 := fuelA_le_length xs
  simp only [fuelV, stringifyV, List.length_cons, List.length_append]
  omega
| .obj .nil => by simp [fuelV, stringifyV]
| .obj (.cons k v fs) => by
  have h1 := fuelV_le_length v
  have h2 := fuelO_le_length fs
  simp only [fuelV, stringifyV, List.length_cons, List.length_append]
  omega

/-- Fuel bound for serialized array tails. -/
theorem fuelA_le_length : ∀ xs : JsonArr, fuelA xs ≤ (stringifyArrTail xs).length
| .nil => by simp [fuelA, stringifyArrTail]
| .cons x xs => by
  have h1 := fuelV_le_length x
  have h2 := fuelA_le_length xs
  simp only [fuelA, stringifyArrTail, List.length_cons, List.length_append]
  omega

/-- Fuel bound for serialized object tails. -/
theorem fuelO_le_length : ∀ fs : JsonObj, fuelO fs ≤ (stringifyObjTail fs).length
| .nil => by simp [fuelO, stringifyObjTail]
| .cons k v fs => by
  have h1 := fuelV_le_length v
  have h2 := fuelO_le_length fs
  simp only [fuelO, stringifyObjTail, List.length_cons, List.length_append]
  omega

end

/-- `JSON.parse` inverts `JSON.stringify` on every JSON value. -/
theorem parse_stringify (v : Json) : parse (stringify v) = some v := by
  have h := parseV_stringify v ((stringifyV v).length + 1) []
    (le_trans (fuelV_le_length v) (by omega)) trivial
  rw [List.append_nil] at h
  simp [parse, stringify, h]

/-! ## Storage lemmas -/

theorem find_replace_self : ∀ (l : List (String × String)) (k v : String),
    l.any (fun p => p.1 = k) = true →
    (l.map (fun p => if p.1 = k then (k, v) else p)).find? (fun p => p.1 = k) = some (k, v)
| [], k, v, h => by simp at h
| p :: ps, k, v, h => by
  by_cases hp : p.1 = k
  · rw [List.map_cons, if_pos hp]
    exact List.find?_cons_of_pos _ (by simp)
  · rw [List.map_cons, if_neg hp, List.find?_cons_of_neg _ (by simp [hp])]
    apply find_replace_self
    simp only [List.any_cons, Bool.or_eq_true, decide_eq_true_eq] at h
    simpa using h.resolve_left hp

theorem find_replace_ne : ∀ (l : List (String × String)) (k v k2 : String), k2 ≠ k →
    (l.map (fun p => if p.1 = k then (k, v) else p)).find? (fun p => p.1 = k2) =
      l.find? (fun p => p.1 = k2)
| [], _, _, _, _ => by simp
| p :: ps, k, v, k2, h => by
  by_cases hp : p.1 = k
  · rw [List.map_cons, if_pos hp,
      List.find?_cons_of_neg _ (by simp [Ne.symm h]),
      List.find?_cons_of_neg _ (by simp [hp, Ne.symm h])]
    exact find_replace_ne ps k v k2 h
  · by_cases hq : p.1 = k2
    · rw [List.map_cons, if_neg hp, List.find?_cons_of_pos _ (by simp [hq]),
        List.find?_cons_of_pos _ (by simp [hq])]
    · rw [List.map_cons, if_neg hp, List.find?_cons_of_neg _ (by simp [hq]),
        List.find?_cons_of_neg _ (by simp [hq])]
      exact find_replace_ne ps k v k2 h

theorem find_append_self : ∀ (l : List (String × String)) (k v : String),
    l.any (fun p => p.1 = k) = false →
    (l ++ [(k, v)]).find? (fun p => p.1 = k) = some (k, v)
| [], k, v, _ => by simp
| p :: ps, k, v, h => by
  simp only [List.any_cons, Bool.or_eq_false_iff, decide_eq_false_iff_not] at h
  rw [List.cons_append, List.find?_cons_of_neg _ (by simp [h.1])]
  exact find_append_self ps k v (by simpa using h.2)

theorem find_append_ne : ∀ (l : List (String × String)) (k v k2 : String), k2 ≠ k →
    (l ++ [(k, v)]).find? (fun p => p.1 = k2) = l.find? (fun p => p.1 = k2)
| [], k, v, k2, h => by simp [List.find?, Ne.symm h]
| p :: ps, k, v, k2, h => by
  by_cases hq : p.1 = k2
  · rw [List.cons_append, List.find?_cons_of_pos _ (by simp [hq]),
      List.find?_cons_of_pos _ (by simp [hq])]
  · rw [List.cons_append, List.find?_cons_of_neg _ (by simp [hq]),
      List.find?_cons_of_neg _ (by simp [hq])]
    exact find_append_ne ps k v k2 h

theorem find_filter_self : ∀ (l : List (String × String)) (k : String),
    (l.filter (fun p => p.1 ≠ k)).find? (fun p => p.1 = k) = none
| [], _ => by simp
| p :: ps, k => by
  by_cases hp : p.1 = k
  · rw [List.filter_cons_of_neg (by simp [hp])]
    exact find_filter_self ps k
  · rw [List.filter_cons_of_pos (by simp [hp]), List.find?_cons_of_neg _ (by simp [hp])]
    exact find_filter_self ps k

theorem find_filter_ne : ∀ (l : List (String × String)) (k k2 : String), k2 ≠ k →
    (l.filter (fun p => p.1 ≠ k)).find? (fun p => p.1 = k2) = l.find? (fun p => p.1 = k2)
| [], _, _, _ => by simp
| p :: ps, k, k2, h => by
  by_cases hp : p.1 = k
  · rw [List.filter_cons_of_neg (by simp [hp]),
      List.find?_cons_of_neg _ (by simp [hp, Ne.symm h])]
    exact find_filter_ne ps k k2 h
  · by_cases hq : p.1 = k2
    · rw [List.filter_cons_of_pos (by simp [hp]), List.find?_cons_of_pos _ (by simp [hq]),
        List.find?_cons_of_pos _ (by simp [hq])]
    · rw [List.filter_cons_of_pos (by simp [hp]), List.find?_cons_of_neg _ (by simp [hq]),
        List.find?_cons_of_neg _ (by simp [hq])]
      exact find_filter_ne ps k k2 h

theorem lsLookup_lsInsert_self (st : LocalStorage) (k v : String) :
    lsLookup (lsInsert st k v) k = some v := by
  rw [lsInsert]
  split
  · next h => rw [lsLookup, find_replace_self st.entries k v h]; rfl
  · next h =>
    rw [lsLookup, find_append_self st.entries k v (Bool.eq_false_iff.mpr h)]
    rfl

theorem lsLookup_lsInsert_ne (st : LocalStorage) (k v k2 : String) (h : k2 ≠ k) :
    lsLookup (lsInsert st k v) k2 = lsLookup st k2 := by
  rw [lsInsert]
  split
  · rw [lsLookup, find_replace_ne st.entries k v k2 h]; rfl
  · rw [lsLookup, find_append_ne st.entries k v k2 h]; rfl

theorem lsLookup_lsErase_self (st : LocalStorage) (k : String) :
    lsLookup (lsErase st k) k = none := by
  rw [lsErase, lsLookup, find_filter_self st.entries k]
  rfl

theorem lsLookup_lsErase_ne (st : LocalStorage) (k k2 : String) (h : k2 ≠ k) :
    lsLookup (lsErase st k) k2 = lsLookup st k2 := by
  rw [lsErase, lsLookup, find_filter_ne st.entries k k2 h]
  rfl

theorem not_mem_lsKeys_lsErase (st : LocalStorage) (k : String) :
    k ∉ lsKeys (lsErase st k) := by
  rw [lsErase, lsKeys]
  intro hmem
  obtain ⟨p, hp, hpk⟩ := List.mem_map.mp hmem
  have := List.of_mem_filter hp
  simp [hpk] at this

/-! ## Behaviour of the cache operations -/

namespace CacheManager

/-- `set` either reports the write fault with the store untouched, or
installs the serialized entry. -/
theorem set_eq (f : Faults) (st : LocalStorage) (now : Int) (key : String)
    (data : Json) (ttl : Int) :
    set f st now key data ttl =
      if f.setItemFails (nsKey key) (stringify (entryJson data now ttl)) then (false, st)
      else (true, lsInsert st (nsKey key) (stringify (entryJson data now ttl))) := by
  rw [set, setItem]
  by_cases h : f.setItemFails (nsKey key) (stringify (entryJson data now ttl)) = true <;>
    simp [h]

/-- `remove` either erases the entry or, on a delete fault, leaves the
store untouched. -/
theorem remove_eq (f : Faults) (st : LocalStorage) (key : String) :
    remove f st key =
      if f.removeItemFails (nsKey key) then st else lsErase st (nsKey key) := by
  rw [remove, removeItem]
  by_cases h : f.removeItemFails (nsKey key) = true <;> simp [h]

/-- `get` when the storage read succeeds and finds a value: the remaining
control flow of the source, as one expression. -/
theorem get_of_lookup_some (f : Faults) (st : LocalStorage) (now : Int) (key : String)
    (s : String)
    (hget : f.getItemFails (nsKey key) = false)
    (hlook : lsLookup st (nsKey key) = some s) :
    get f st now key =
      if s = "" then (.val .null, st)
      else
        match parse s with
        | none => (.val .null, remove f st key)
        | some .null => (.val .null, remove f st key)
        | some entry =>
          if expiredCheck now (getField entry "timestamp") (getField entry "ttl") then
            (.val .null, remove f st key)
          else (getField entry "data", st) := by
  rw [get, getItem, if_neg (by simp [hget]), hlook]

/-- `get` on a key holding a well-formed serialized entry: the value while
the expiry check fails, eviction and `null` once it holds. -/
theorem get_entry (f : Faults) (st : LocalStorage) (now : Int) (key : String)
    (data : Json) (ts ttl : Int)
    (hget : f.getItemFails (nsKey key) = false)
    (hlook : lsLookup st (nsKey key) = some (stringify (entryJson data ts ttl))) :
    get f st now key =
      if now - ts > ttl then (.val .null, remove f st key)
      else (.val data, st) := by
  have hne : stringify (entryJson data ts ttl) ≠ "" := by
    intro h
    have h2 := congrArg String.data h
    simp [stringify, stringifyV, entryJson] at h2
  rw [get, getItem, if_neg (by simp [hget]), hlook]
  simp only [if_neg hne]
  rw [parse_stringify]
  show (if expiredCheck now (getField (entryJson data ts ttl) "timestamp")
      (getField (entryJson data ts ttl) "ttl") = true then _ else _) = _
  rw [show getField (entryJson data ts ttl) "timestamp" = .val (.num ts) from rfl,
    show getField (entryJson data ts ttl) "ttl" = .val (.num ttl) from rfl,
    show getField (.obj (.cons "data".data data (.cons "timestamp".data (.num ts)
      (.cons "ttl".data (.num ttl) .nil)))) "data" = .val data from rfl]
  rw [show expiredCheck now (.val (.num ts)) (.val (.num ttl)) = decide (now - ts > ttl)
    from rfl]
  by_cases hc : now - ts > ttl
  · simp [hc]
  · simp [hc]

/-- The `getStats` accumulation over a fault-free store, in closed form. -/
theorem statsLoop_noFaults (st : LocalStorage) (now : Int) :
    ∀ (ks : List String) (size valid expired : Nat),
    statsLoop noFaults st now ks size valid expired =
      .ok (size + (ks.map (fun k => sizeOfValue (lsLookup st k))).sum,
        valid + ks.countP (fun k => decide (classifyValid now (lsLookup st k) = some true)),
        expired + ks.countP (fun k => decide (classifyValid now (lsLookup st k) = some false)))
| [], size, valid, expired => by simp [statsLoop]
| k :: ks, size, valid, expired => by
  rw [statsLoop]
  rw [show getItem noFaults st k = .ok (lsLookup st k) from rfl]
  cases hc : classifyValid now (lsLookup st k) with
  | none =>
    simp only [hc]
    rw [statsLoop_noFaults st now ks (size + sizeOfValue (lsLookup st k)) valid expired]
    simp [List.countP_cons, hc]
    omega
  | some b =>
    cases b with
    | true =>
      simp only [hc]
      rw [statsLoop_noFaults st now ks (size + sizeOfValue (lsLookup st k)) (valid + 1) expired]
      simp [List.countP_cons, hc]
      omega
    | false =>
      simp only [hc]
      rw [statsLoop_noFaults st now ks (size + sizeOfValue (lsLookup st k)) valid (expired + 1)]
      simp [List.countP_cons, hc]
      omega

/-- `getStats` on a fault-free store, in closed form. -/
theorem getStats_noFaults (st : LocalStorage) (now : Int) :
    getStats noFaults st now =
      some ⟨(cacheKeysOf st).length, validCount st now, expiredCount st now,
        sizeSum st, (sizeSum st * 100 + 512) / 1024⟩ := by
  have h := statsLoop_noFaults st now ((lsKeys st).filter (fun k => jsStartsWith k "cache_")) 0 0 0
  simp only [Nat.zero_add] at h
  rw [getStats]
  rw [show objectKeys noFaults st = .ok (lsKeys st) from rfl]
  simp only [h]
  rfl

/-- Two pointwise-incompatible predicates never count more than the
length. -/
theorem countP_disjoint_le : ∀ (l : List String) (p q : String → Bool),
    (∀ a, ¬(p a = true ∧ q a = true)) → l.countP p + l.countP q ≤ l.length
| [], _, _, _ => by simp
| a :: l, p, q, h => by
  have ih := countP_disjoint_le l p q h
  have ha := h a
  rw [List.countP_cons, List.countP_cons, List.length_cons]
  by_cases hp : p a = true <;> by_cases hq : q a = true <;> simp [hp, hq] at ha ⊢ <;> omega

/-- Removing key `k` and then sweeping the remaining listed keys equals
sweeping `k :: ks`, when `k` is namespaced. -/
theorem filter_erase_step : ∀ (l : List (String × String)) (k : String) (ks : List String),
    jsStartsWith k "cache_" = true →
    List.filter (fun p => !(ks.contains p.1 && jsStartsWith p.1 "cache_"))
      (List.filter (fun p => p.1 ≠ k) l) =
    List.filter (fun p => !((k :: ks).contains p.1 && jsStartsWith p.1 "cache_")) l
| [], _, _, _ => by simp
| p :: ps, k, ks, hk => by
  by_cases hp : p.1 = k
  · rw [List.filter_cons_of_neg (by simp [hp]),
      List.filter_cons_of_neg (by simp [List.contains_cons, hp, hk])]
    exact filter_erase_step ps k ks hk
  · rw [List.filter_cons_of_pos (by simp [hp])]
    have hc : ((k :: ks).contains p.1 && jsStartsWith p.1 "cache_")
        = (ks.contains p.1 && jsStartsWith p.1 "cache_") := by
      simp [List.contains_cons, hp]
    cases hq : (ks.contains p.1 && jsStartsWith p.1 "cache_") with
    | true =>
      rw [List.filter_cons_of_neg (by rw [hq]; simp),
        List.filter_cons_of_neg (by rw [hc, hq]; simp)]
      exact filter_erase_step ps k ks hk
    | false =>
      rw [List.filter_cons_of_pos (by rw [hq]; rfl),
        List.filter_cons_of_pos (by rw [hc, hq]; rfl)]
      rw [filter_erase_step ps k ks hk]

/-- Sweeping a non-namespaced key is a no-op on the filter. -/
theorem filter_skip_step : ∀ (l : List (String × String)) (k : String) (ks : List String),
    jsStartsWith k "cache_" = false →
    List.filter (fun p => !(ks.contains p.1 && jsStartsWith p.1 "cache_")) l =
    List.filter (fun p => !((k :: ks).contains p.1 && jsStartsWith p.1 "cache_")) l
| [], _, _, _ => by simp
| p :: ps, k, ks, hk => by
  have hc : ((k :: ks).contains p.1 && jsStartsWith p.1 "cache_")
      = (ks.contains p.1 && jsStartsWith p.1 "cache_") := by
    by_cases hp : p.1 = k
    · simp [List.contains_cons, hp, hk]
    · simp [List.contains_cons, hp]
  cases hq : (ks.contains p.1 && jsStartsWith p.1 "cache_") with
  | true =>
    rw [List.filter_cons_of_neg (by rw [hq]; simp),
      List.filter_cons_of_neg (by rw [hc, hq]; simp)]
    exact filter_skip_step ps k ks hk
  | false =>
    rw [List.filter_cons_of_pos (by rw [hq]; rfl),
      List.filter_cons_of_pos (by rw [hc, hq]; rfl)]
    rw [filter_skip_step ps k ks hk]

/-- The `forEach` of `clear` over a fault-free store removes exactly the
listed namespaced keys. -/
theorem clearLoop_noFaults : ∀ (ks : List String) (st : LocalStorage),
    clearLoop noFaults ks st =
      ⟨st.entries.filter (fun p => !(ks.contains p.1 && jsStartsWith p.1 "cache_"))⟩
| [], st => by
  simp [clearLoop]
| k :: ks, st => by
  rw [clearLoop]
  by_cases hk : jsStartsWith k "cache_"
  · rw [if_pos hk]
    rw [show removeItem noFaults st k = .ok (lsErase st k) from rfl]
    show clearLoop noFaults ks (lsErase st k) = _
    rw [clearLoop_noFaults ks (lsErase st k)]
    exact congrArg LocalStorage.mk (filter_erase_step st.entries k ks hk)
  · rw [if_neg hk]
    rw [clearLoop_noFaults ks st]
    exact congrArg LocalStorage.mk
      (filter_skip_step st.entries k ks (Bool.eq_false_iff.mpr hk))

/-- Every entry key is among `Object.keys`, so `clear` filters exactly on
the namespace test. -/
theorem filter_keys_all : ∀ (l : List (String × String)) (ks : List String),
    (∀ p ∈ l, ks.contains p.1 = true) →
    List.filter (fun p => !(ks.contains p.1 && jsStartsWith p.1 "cache_")) l =
    List.filter (fun p => !(jsStartsWith p.1 "cache_")) l
| [], _, _ => by simp
| p :: ps, ks, h => by
  have hp := h p (by simp)
  cases hq : jsStartsWith p.1 "cache_" with
  | true =>
    rw [List.filter_cons_of_neg (by rw [hp, hq]; simp),
      List.filter_cons_of_neg (by rw [hq]; simp)]
    exact filter_keys_all ps ks (fun q hq2 => h q (by simp [hq2]))
  | false =>
    rw [List.filter_cons_of_pos (by rw [hq]; simp),
      List.filter_cons_of_pos (by rw [hq]; rfl)]
    rw [filter_keys_all ps ks (fun q hq2 => h q (by simp [hq2]))]

/-- `clear` on a fault-free store keeps exactly the non-namespaced
entries. -/
theorem clear_noFaults (st : LocalStorage) :
    clear noFaults st = ⟨st.entries.filter (fun p => !(jsStartsWith p.1 "cache_"))⟩ := by
  rw [clear]
  rw [show objectKeys noFaults st = .ok (lsKeys st) from rfl]
  show clearLoop noFaults (lsKeys st) st = _
  rw [clearLoop_noFaults (lsKeys st) st]
  refine congrArg LocalStorage.mk (filter_keys_all st.entries (lsKeys st) ?_)
  intro p hp
  have hmem : p.1 ∈ lsKeys st := List.mem_map.mpr ⟨p, hp, rfl⟩
  simpa using hmem

end CacheManager

/-- Filtering out all namespaced entries leaves no namespaced keys. -/
theorem cacheKeysOf_filter_ns (l : List (String × String)) :
    cacheKeysOf ⟨l.filter (fun p => !(jsStartsWith p.1 "cache_"))⟩ = [] := by
  rw [cacheKeysOf, lsKeys]
  rw [List.filter_eq_nil]
  intro a ha
  obtain ⟨p, hp, hpa⟩ := List.mem_map.mp ha
  have := List.of_mem_filter hp
  simp only [Bool.not_eq_true'] at this
  simp [← hpa, this]

/-- Lookups of non-namespaced keys see through the namespace sweep. -/
theorem find_filter_ns : ∀ (l : List (String × String)) (k : String),
    jsStartsWith k "cache_" = false →
    (l.filter (fun p => !(jsStartsWith p.1 "cache_"))).find? (fun p => p.1 = k)
      = l.find? (fun p => p.1 = k)
| [], _, _ => by simp
| p :: ps, k, hk => by
  cases hq : jsStartsWith p.1 "cache_" with
  | true =>
    rw [List.filter_cons_of_neg (by rw [hq]; simp),
      List.find?_cons_of_neg _ (by simp; intro he; rw [he] at hq; rw [hq] at hk; exact absurd hk (by simp))]
    exact find_filter_ns ps k hk
  | false =>
    rw [List.filter_cons_of_pos (by rw [hq]; rfl)]
    by_cases hp : p.1 = k
    · rw [List.find?_cons_of_pos _ (by simp [hp]), List.find?_cons_of_pos _ (by simp [hp])]
    · rw [List.find?_cons_of_neg _ (by simp [hp]), List.find?_cons_of_neg _ (by simp [hp])]
      exact find_filter_ns ps k hk

/-! ## The claims -/

/-- C1: for every key, JSON-representable value and ttl `t > 0`, if
`set(k, v, t)` succeeds (returns true) then an immediately following
`get(k)` (same clock reading, storage read not faulting) returns exactly
the stored value. -/
theorem C1_set_then_get (f : Faults) (st : LocalStorage) (now : Int) (key : String)
    (data : Json) (ttl : Int) (hkey : key ≠ "") (httl : 0 < ttl)
    (hget : f.getItemFails (nsKey key) = false)
    (hset : (CacheManager.set f st now key data ttl).1 = true) :
    (CacheManager.get f (CacheManager.set f st now key data ttl).2 now key).1 = .val data := by
  rw [CacheManager.set_eq] at hset ⊢
  by_cases hf : f.setItemFails (nsKey key) (stringify (entryJson data now ttl)) = true
  · rw [if_pos hf] at hset
    exact absurd hset (by simp)
  · rw [if_neg hf]
    have hlook := lsLookup_lsInsert_self st (nsKey key) (stringify (entryJson data now ttl))
    rw [CacheManager.get_entry f _ now key data now ttl hget hlook]
    rw [if_neg (by omega)]

/-- Witness for C1 at a concrete input. -/
theorem C1_witness :
    ("k" : String) ≠ "" ∧ (0 : Int) < 5 ∧
    (CacheManager.set noFaults ⟨[]⟩ 100 "k" (.num 7) 5).1 = true ∧
    (CacheManager.get noFaults (CacheManager.set noFaults ⟨[]⟩ 100 "k" (.num 7) 5).2
      100 "k").1 = .val (.num 7) :=
  ⟨by decide, by decide, by decide,
    C1_set_then_get noFaults ⟨[]⟩ 100 "k" (.num 7) 5 (by decide) (by decide) rfl (by decide)⟩

/-- C2: after a successful `set(k, v, t)`, `get(k)` returns `v` exactly
while `now2 - now ≤ t` — in particular at `now2 - now = t`, since the
expiry test is strict — and once `now2 - now > t` it removes the entry and
returns null; the namespaced key is then gone, and `getStats` computes
`validEntries` as a count over the remaining namespaced keys of the store,
none of which is the evicted one. -/
theorem C2_expiry_boundary (f : Faults) (st : LocalStorage) (now : Int) (key : String)
    (data : Json) (ttl : Int)
    (hget : f.getItemFails (nsKey key) = false)
    (hrem : f.removeItemFails (nsKey key) = false)
    (hset : (CacheManager.set f st now key data ttl).1 = true) :
    (∀ now2, now2 - now ≤ ttl →
      CacheManager.get f (CacheManager.set f st now key data ttl).2 now2 key =
        (.val data, (CacheManager.set f st now key data ttl).2)) ∧
    (∀ now2, now2 - now > ttl →
      CacheManager.get f (CacheManager.set f st now key data ttl).2 now2 key =
        (.val .null, lsErase (CacheManager.set f st now key data ttl).2 (nsKey key)) ∧
      lsLookup (lsErase (CacheManager.set f st now key data ttl).2 (nsKey key)) (nsKey key)
        = none ∧
      nsKey key ∉ lsKeys (lsErase (CacheManager.set f st now key data ttl).2 (nsKey key)) ∧
      ∀ now3, ∃ s,
        CacheManager.getStats noFaults
          (lsErase (CacheManager.set f st now key data ttl).2 (nsKey key)) now3 = some s ∧
        s.validEntries
          = validCount (lsErase (CacheManager.set f st now key data ttl).2 (nsKey key)) now3) := by
  rw [CacheManager.set_eq] at hset ⊢
  by_cases hf : f.setItemFails (nsKey key) (stringify (entryJson data now ttl)) = true
  · rw [if_pos hf] at hset
    exact absurd hset (by simp)
  · rw [if_neg hf]
    have hlook := lsLookup_lsInsert_self st (nsKey key) (stringify (entryJson data now ttl))
    constructor
    · intro now2 h2
      rw [CacheManager.get_entry f _ now2 key data now ttl hget hlook]
      rw [if_neg (by omega)]
    · intro now2 h2
      refine ⟨?_, lsLookup_lsErase_self _ _, not_mem_lsKeys_lsErase _ _, ?_⟩
      · rw [CacheManager.get_entry f _ now2 key data now ttl hget hlook]
        rw [if_pos (by omega), CacheManager.remove_eq, if_neg (by simp [hrem])]
      · intro now3
        exact ⟨_, CacheManager.getStats_noFaults _ now3, rfl⟩

/-- Witness for C2 at a concrete input: value returned exactly at expiry,
gone one millisecond later. -/
theorem C2_witness :
    CacheManager.get noFaults (CacheManager.set noFaults ⟨[]⟩ 100 "k" (.num 7) 5).2 105 "k"
      = (.val (.num 7), (CacheManager.set noFaults ⟨[]⟩ 100 "k" (.num 7) 5).2) ∧
    CacheManager.get noFaults (CacheManager.set noFaults ⟨[]⟩ 100 "k" (.num 7) 5).2 106 "k"
      = (.val .null,
        lsErase (CacheManager.set noFaults ⟨[]⟩ 100 "k" (.num 7) 5).2 (nsKey "k")) :=
  ⟨(C2_expiry_boundary noFaults ⟨[]⟩ 100 "k" (.num 7) 5 rfl rfl (by decide)).1 105 (by decide),
   ((C2_expiry_boundary noFaults ⟨[]⟩ 100 "k" (.num 7) 5 rfl rfl (by decide)).2 106
     (by decide)).1⟩

/-- C3: `set` never throws; on a storage-write fault it returns false with
the store unchanged, and on success the new entry is fully written with
every other key untouched. -/
theorem C3_set_atomic (f : Faults) (st : LocalStorage) (now : Int) (key : String)
    (data : Json) (ttl : Int) :
    ((CacheManager.set f st now key data ttl).1 = false →
      (CacheManager.set f st now key data ttl).2 = st) ∧
    ((CacheManager.set f st now key data ttl).1 = true →
      lsLookup (CacheManager.set f st now key data ttl).2 (nsKey key)
        = some (stringify (entryJson data now ttl)) ∧
      ∀ k2, k2 ≠ nsKey key →
        lsLookup (CacheManager.set f st now key data ttl).2 k2 = lsLookup st k2) := by
  rw [CacheManager.set_eq]
  by_cases hf : f.setItemFails (nsKey key) (stringify (entryJson data now ttl)) = true
  · rw [if_pos hf]
    exact ⟨fun _ => rfl, fun h => absurd h (by simp)⟩
  · rw [if_neg hf]
    exact ⟨fun h => absurd h (by simp),
      fun _ => ⟨lsLookup_lsInsert_self st _ _,
        fun k2 h2 => lsLookup_lsInsert_ne st _ _ k2 h2⟩⟩

/-- Witness for C3: a quota-style write fault leaves the prior entry
untouched; a successful write installs the entry. -/
theorem C3_witness :
    ((CacheManager.set ⟨fun _ _ => true, fun _ => false, fun _ => false, false⟩
        ⟨[("cache_k", "old")]⟩ 0 "k" (.num 1) 9).1 = false →
      (CacheManager.set ⟨fun _ _ => true, fun _ => false, fun _ => false, false⟩
        ⟨[("cache_k", "old")]⟩ 0 "k" (.num 1) 9).2 = ⟨[("cache_k", "old")]⟩) ∧
    ((CacheManager.set noFaults ⟨[]⟩ 0 "k" (.num 1) 9).1 = true →
      lsLookup (CacheManager.set noFaults ⟨[]⟩ 0 "k" (.num 1) 9).2 (nsKey "k")
        = some (stringify (entryJson (.num 1) 0 9)) ∧
      ∀ k2, k2 ≠ nsKey "k" →
        lsLookup (CacheManager.set noFaults ⟨[]⟩ 0 "k" (.num 1) 9).2 k2
          = lsLookup (⟨[]⟩ : LocalStorage) k2) :=
  ⟨(C3_set_atomic ⟨fun _ _ => true, fun _ => false, fun _ => false, false⟩
      ⟨[("cache_k", "old")]⟩ 0 "k" (.num 1) 9).1,
   (C3_set_atomic noFaults ⟨[]⟩ 0 "k" (.num 1) 9).2⟩

/-- C4 counterexample: the empty string is a stored record that does not
deserialize (`JSON.parse("")` throws), yet `get` takes the falsy
`!cached` early return: it yields absent but leaves the entry in
storage, contradicting the claimed removal. -/
theorem C4_counterexample :
    parse "" = none ∧
    lsLookup ⟨[("cache_k", "")]⟩ (nsKey "k") = some "" ∧
    CacheManager.get noFaults ⟨[("cache_k", "")]⟩ 0 "k"
      = (.val .null, ⟨[("cache_k", "")]⟩) := by
  refine ⟨by decide, by decide, ?_⟩
  decide

/-- C4 (amended): for every key whose stored record is non-empty and does
not deserialize, `get` removes the entry and returns absent without
propagating the parse failure; the empty stored record returns absent but
is left in place. -/
theorem C4_corrupt_removed (f : Faults) (st : LocalStorage) (now : Int) (key : String)
    (s : String)
    (hget : f.getItemFails (nsKey key) = false)
    (hrem : f.removeItemFails (nsKey key) = false)
    (hlook : lsLookup st (nsKey key) = some s)
    (hparse : parse s = none) :
    (s ≠ "" → CacheManager.get f st now key = (.val .null, lsErase st (nsKey key)) ∧
      lsLookup (lsErase st (nsKey key)) (nsKey key) = none) ∧
    (s = "" → CacheManager.get f st now key = (.val .null, st)) := by
  rw [CacheManager.get_of_lookup_some f st now key s hget hlook]
  constructor
  · intro hne
    rw [if_neg hne, hparse]
    exact ⟨by rw [CacheManager.remove_eq, if_neg (by simp [hrem])],
      lsLookup_lsErase_self st (nsKey key)⟩
  · intro he
    rw [if_pos he]

/-- Witness for the amended C4 at a concrete corrupt record. -/
theorem C4_witness :
    CacheManager.get noFaults ⟨[("cache_k", "xyz")]⟩ 0 "k"
      = (.val .null, lsErase ⟨[("cache_k", "xyz")]⟩ (nsKey "k")) ∧
    lsLookup (lsErase ⟨[("cache_k", "xyz")]⟩ (nsKey "k")) (nsKey "k") = none :=
  (C4_corrupt_removed noFaults ⟨[("cache_k", "xyz")]⟩ 0 "k" "xyz" rfl rfl (by decide)
    (by decide)).1 (by decide)

/-- C5 counterexample: the record `{"data":42}` parses but has neither a
`timestamp` nor a `ttl` field; `get` neither evicts it nor returns
absent — the `NaN` expiry comparison is false and the `data` field is
returned, with the entry left in storage. -/
theorem C5_counterexample :
    parse "\x7b\"data\":42\x7d" = some (.obj (.cons "data".data (.num 42) .nil)) ∧
    getField (.obj (.cons "data".data (.num 42) .nil)) "timestamp" = JsVal.undef ∧
    getField (.obj (.cons "data".data (.num 42) .nil)) "ttl" = JsVal.undef ∧
    CacheManager.get noFaults ⟨[("cache_k", "\x7b\"data\":42\x7d")]⟩ 0 "k"
      = (.val (.num 42), ⟨[("cache_k", "\x7b\"data\":42\x7d")]⟩) := by
  refine ⟨by decide, by decide, by decide, ?_⟩
  decide

/-- C5 (amended): a stored record that parses but lacks the expected
shape is not treated as corrupt.  Only a record parsing to `null` (whose
property access throws) is evicted with absent returned; every other
parseable record whose coerced expiry comparison is false — in particular
one missing `timestamp`/`ttl`, where the comparison is `NaN`-false — is
left in place and its `data` field (undefined when missing) is
returned. -/
theorem C5_shape_not_validated (f : Faults) (st : LocalStorage) (now : Int) (key : String)
    (s : String) (entry : Json)
    (hget : f.getItemFails (nsKey key) = false)
    (hrem : f.removeItemFails (nsKey key) = false)
    (hlook : lsLookup st (nsKey key) = some s)
    (hne : s ≠ "")
    (hparse : parse s = some entry) :
    (entry = .null →
      CacheManager.get f st now key = (.val .null, lsErase st (nsKey key))) ∧
    (entry ≠ .null →
      expiredCheck now (getField entry "timestamp") (getField entry "ttl") = false →
      CacheManager.get f st now key = (getField entry "data", st)) := by
  rw [CacheManager.get_of_lookup_some f st now key s hget hlook, if_neg hne, hparse]
  constructor
  · intro hnull
    subst hnull
    rw [CacheManager.remove_eq, if_neg (by simp [hrem])]
  · intro hnull hcheck
    cases entry with
    | null => exact absurd rfl hnull
    | bool b => simp [hcheck]
    | num n => simp [hcheck]
    | str s2 => simp [hcheck]
    | arr xs => simp [hcheck]
    | obj fs => simp [hcheck]

/-- Witness for the amended C5: a field-less parsed record is returned
as-is. -/
theorem C5_witness :
    CacheManager.get noFaults ⟨[("cache_k", "\x7b\"data\":42\x7d")]⟩ 7 "k"
      = (getField (.obj (.cons "data".data (.num 42) .nil)) "data",
        ⟨[("cache_k", "\x7b\"data\":42\x7d")]⟩) :=
  (C5_shape_not_validated noFaults ⟨[("cache_k", "\x7b\"data\":42\x7d")]⟩ 7 "k"
      "\x7b\"data\":42\x7d" (.obj (.cons "data".data (.num 42) .nil))
      rfl rfl (by decide) (by decide) (by decide)).2 (by decide) (by decide)

/-- C6: `clear` deletes exactly the namespaced keys: the store keeps
precisely its non-namespaced entries, `getStats` afterwards reports
`totalEntries = 0`, and every non-namespaced key reads as before. -/
theorem C6_clear_exact (st : LocalStorage) (now : Int) :
    (CacheManager.clear noFaults st).entries
      = st.entries.filter (fun p => !(jsStartsWith p.1 "cache_")) ∧
    (∃ s, CacheManager.getStats noFaults (CacheManager.clear noFaults st) now = some s ∧
      s.totalEntries = 0) ∧
    (∀ k, jsStartsWith k "cache_" = false →
      lsLookup (CacheManager.clear noFaults st) k = lsLookup st k) := by
  have hclear := CacheManager.clear_noFaults st
  refine ⟨by rw [hclear], ⟨_, CacheManager.getStats_noFaults _ now, ?_⟩, ?_⟩
  · show (cacheKeysOf (CacheManager.clear noFaults st)).length = 0
    rw [hclear, cacheKeysOf_filter_ns]
    rfl
  · intro k hk
    rw [hclear, lsLookup, lsLookup]
    show (List.find? _ (List.filter _ st.entries)).map Prod.snd = _
    rw [find_filter_ns st.entries k hk]

/-- Witness for C6: a mixed store is swept down to its foreign key. -/
theorem C6_witness :
    (CacheManager.clear noFaults ⟨[("other", "x"), ("cache_a", "1"), ("cache_b", "2")]⟩).entries
      = [("other", "x")] ∧
    (∃ s, CacheManager.getStats noFaults
        (CacheManager.clear noFaults ⟨[("other", "x"), ("cache_a", "1"), ("cache_b", "2")]⟩) 0
      = some s ∧ s.totalEntries = 0) ∧
    lsLookup (CacheManager.clear noFaults
        ⟨[("other", "x"), ("cache_a", "1"), ("cache_b", "2")]⟩) "other" = some "x" := by
  have h := C6_clear_exact ⟨[("other", "x"), ("cache_a", "1"), ("cache_b", "2")]⟩ 0
  refine ⟨by rw [h.1]; decide, h.2.1, ?_⟩
  rw [h.2.2 "other" (by decide)]
  decide

/-- C7: under each class of storage fault, every public operation returns
its defined non-throwing failure value: `set` reports false with the store
unchanged, `get` returns null, `remove` and `clear` complete silently
leaving the store as-is, `getStats` returns absent, and `isAvailable`
returns false. -/
theorem C7_defined_failure_values (f : Faults) (st : LocalStorage) (now : Int)
    (key : String) (data : Json) (ttl : Int) :
    (f.setItemFails (nsKey key) (stringify (entryJson data now ttl)) = true →
      CacheManager.set f st now key data ttl = (false, st)) ∧
    (f.getItemFails (nsKey key) = true →
      (CacheManager.get f st now key).1 = .val .null) ∧
    (f.removeItemFails (nsKey key) = true → CacheManager.remove f st key = st) ∧
    (f.keysFails = true →
      CacheManager.clear f st = st ∧ CacheManager.getStats f st now = none) ∧
    (f.setItemFails testKey testKey = true → CacheManager.isAvailable f st = (false, st)) ∧
    (f.setItemFails testKey testKey = false → f.removeItemFails testKey = true →
      (CacheManager.isAvailable f st).1 = false) := by
  refine ⟨?_, ?_, ?_, ?_, ?_, ?_⟩
  · intro h
    rw [CacheManager.set_eq, if_pos h]
  · intro h
    rw [CacheManager.get, getItem, if_pos (by simp [h])]
  · intro h
    rw [CacheManager.remove_eq, if_pos (by simp [h])]
  · intro h
    constructor
    · rw [CacheManager.clear, objectKeys, if_pos (by simp [h])]
    · rw [CacheManager.getStats, objectKeys, if_pos (by simp [h])]
  · intro h
    rw [CacheManager.isAvailable, setItem, if_pos (by simp [h])]
  · intro h1 h2
    rw [CacheManager.isAvailable, setItem, if_neg (by simp [h1])]
    simp [removeItem, h2]

/-- Witness for C7 under an all-faulting substrate. -/
theorem C7_witness :
    CacheManager.set ⟨fun _ _ => true, fun _ => true, fun _ => true, true⟩ ⟨[]⟩ 0 "k"
      (.num 1) 9 = (false, ⟨[]⟩) ∧
    (CacheManager.get ⟨fun _ _ => true, fun _ => true, fun _ => true, true⟩ ⟨[]⟩ 0 "k").1
      = .val .null ∧
    CacheManager.remove ⟨fun _ _ => true, fun _ => true, fun _ => true, true⟩ ⟨[]⟩ "k" = ⟨[]⟩ ∧
    CacheManager.clear ⟨fun _ _ => true, fun _ => true, fun _ => true, true⟩ ⟨[]⟩ = ⟨[]⟩ ∧
    CacheManager.getStats ⟨fun _ _ => true, fun _ => true, fun _ => true, true⟩ ⟨[]⟩ 0
      = none ∧
    CacheManager.isAvailable ⟨fun _ _ => true, fun _ => true, fun _ => true, true⟩ ⟨[]⟩
      = (false, ⟨[]⟩) :=
  ⟨(C7_defined_failure_values _ ⟨[]⟩ 0 "k" (.num 1) 9).1 rfl,
   (C7_defined_failure_values _ ⟨[]⟩ 0 "k" (.num 1) 9).2.1 rfl,
   (C7_defined_failure_values _ ⟨[]⟩ 0 "k" (.num 1) 9).2.2.1 rfl,
   ((C7_defined_failure_values _ ⟨[]⟩ 0 "k" (.num 1) 9).2.2.2.1 rfl).1,
   ((C7_defined_failure_values _ ⟨[]⟩ 0 "k" (.num 1) 9).2.2.2.1 rfl).2,
   (C7_defined_failure_values _ ⟨[]⟩ 0 "k" (.num 1) 9).2.2.2.2.1 rfl⟩

/-- C8 counterexample: the stored record `null` parses
(`JSON.parse("null")` succeeds), yet the diagnostic pass counts it toward
neither `validEntries` nor `expiredEntries` — its property access throws
into the inner catch — so not every parseable entry is classified. -/
theorem C8_counterexample :
    (∃ e, parse "null" = some e) ∧
    CacheManager.getStats noFaults ⟨[("cache_n", "null")]⟩ 0
      = some ⟨1, 0, 0, 4, 0⟩ :=
  ⟨⟨.null, by decide⟩, by decide⟩

/-- C8 (amended): `getStats` is a read-only diagnostic pass over a
fault-free store: it reports the number of namespaced keys as
`totalEntries`, classifies each entry by the source's coerced expiry
check, skipping — besides entries that fail to parse — also entries
parsing to `null` (whose property access throws into the same catch), so
`validEntries + expiredEntries ≤ totalEntries`; and any enumeration fault
yields absent. -/
theorem C8_stats_classification (st : LocalStorage) (now : Int) (f : Faults) :
    (∃ s, CacheManager.getStats noFaults st now = some s ∧
      s.totalEntries = (cacheKeysOf st).length ∧
      s.validEntries = validCount st now ∧
      s.expiredEntries = expiredCount st now ∧
      s.validEntries + s.expiredEntries ≤ s.totalEntries) ∧
    (f.keysFails = true → CacheManager.getStats f st now = none) := by
  constructor
  · refine ⟨_, CacheManager.getStats_noFaults st now, rfl, rfl, rfl, ?_⟩
    show validCount st now + expiredCount st now ≤ (cacheKeysOf st).length
    apply CacheManager.countP_disjoint_le
    intro a ⟨h1, h2⟩
    simp only [decide_eq_true_eq] at h1 h2
    rw [h1] at h2
    exact absurd h2 (by simp)
  · intro h
    rw [CacheManager.getStats, objectKeys, if_pos (by simp [h])]

/-- Witness for the amended C8 on a store with one valid, one expired,
one corrupt and one `null` entry. -/
theorem C8_witness :
    (∃ s, CacheManager.getStats noFaults
        ⟨[("cache_a", "\x7b\"data\":1,\"timestamp\":0,\"ttl\":10\x7d"),
          ("cache_b", "\x7b\"data\":2,\"timestamp\":0,\"ttl\":3\x7d"),
          ("cache_c", "xyz"), ("cache_d", "null")]⟩ 5 = some s ∧
      s.totalEntries = 4 ∧ s.validEntries = 1 ∧ s.expiredEntries = 1 ∧
      s.validEntries + s.expiredEntries ≤ s.totalEntries) ∧
    CacheManager.getStats ⟨fun _ _ => false, fun _ => false, fun _ => false, true⟩
      ⟨[]⟩ 5 = none := by
  constructor
  · obtain ⟨s, hs, h1, h2, h3, h4⟩ := (C8_stats_classification
      ⟨[("cache_a", "\x7b\"data\":1,\"timestamp\":0,\"ttl\":10\x7d"),
        ("cache_b", "\x7b\"data\":2,\"timestamp\":0,\"ttl\":3\x7d"),
        ("cache_c", "xyz"), ("cache_d", "null")]⟩ 5 noFaults).1
    refine ⟨s, hs, ?_, ?_, ?_, h4⟩
    · rw [h1]; decide
    · rw [h2]; decide
    · rw [h3]; decide
  · exact (C8_stats_classification ⟨[]⟩ 5
      ⟨fun _ _ => false, fun _ => false, fun _ => false, true⟩).2 rfl

/-- C9 counterexample: with the probe key already present in the substrate
and the probe write faulting (e.g. quota exhausted), `isAvailable` returns
false by the catch path without ever calling `removeItem`, and the probe
key is still present afterwards. -/
theorem C9_counterexample :
    (CacheManager.isAvailable
        ⟨fun k _ => k == testKey, fun _ => false, fun _ => false, false⟩
        ⟨[(testKey, "x")]⟩).1 = false ∧
    lsLookup (CacheManager.isAvailable
        ⟨fun k _ => k == testKey, fun _ => false, fun _ => false, false⟩
        ⟨[(testKey, "x")]⟩).2 testKey = some "x" := by
  decide

/-- C9 (amended): when the probe key is not initially present and the
probe delete does not fault, `isAvailable` leaves the probe key absent on
every exit path, whether it returns true or false. -/
theorem C9_probe_not_left (f : Faults) (st : LocalStorage)
    (habs : lsLookup st testKey = none)
    (hrem : f.removeItemFails testKey = false) :
    lsLookup (CacheManager.isAvailable f st).2 testKey = none := by
  rw [CacheManager.isAvailable, setItem]
  by_cases hw : f.setItemFails testKey testKey = true
  · rw [if_pos (by simp [hw])]
    exact habs
  · rw [if_neg (by simp [hw])]
    simp only [removeItem, hrem, Bool.false_eq_true, if_false]
    exact lsLookup_lsErase_self _ _

/-- Witness for the amended C9 on an empty substrate with a faulting
write. -/
theorem C9_witness :
    lsLookup (CacheManager.isAvailable
      ⟨fun k _ => k == testKey, fun _ => false, fun _ => false, false⟩ ⟨[]⟩).2 testKey
      = none :=
  C9_probe_not_left ⟨fun k _ => k == testKey, fun _ => false, fun _ => false, false⟩
    ⟨[]⟩ (by decide) rfl

/-- C10: `set` validates nothing — any key (the empty string included) and
any ttl (zero and negative included) succeed whenever the storage write
does, storing the entry under the namespaced key; a negative ttl is then
expired for every `get` at or after the write instant, while ttl zero is
still returned at the write instant itself. -/
theorem C10_no_validation (f : Faults) (st : LocalStorage) (now : Int) (key : String)
    (data : Json) (ttl : Int)
    (hw : f.setItemFails (nsKey key) (stringify (entryJson data now ttl)) = false)
    (hget : f.getItemFails (nsKey key) = false) :
    (CacheManager.set f st now key data ttl).1 = true ∧
    lsLookup (CacheManager.set f st now key data ttl).2 (nsKey key)
      = some (stringify (entryJson data now ttl)) ∧
    (ttl < 0 → ∀ now2, now ≤ now2 →
      (CacheManager.get f (CacheManager.set f st now key data ttl).2 now2 key).1
        = .val .null) ∧
    (ttl = 0 →
      (CacheManager.get f (CacheManager.set f st now key data ttl).2 now key).1
        = .val data) := by
  rw [CacheManager.set_eq, if_neg (by simp [hw])]
  have hlook := lsLookup_lsInsert_self st (nsKey key) (stringify (entryJson data now ttl))
  refine ⟨rfl, hlook, ?_, ?_⟩
  · intro hneg now2 h2
    rw [CacheManager.get_entry f _ now2 key data now ttl hget hlook]
    rw [if_pos (by omega)]
  · intro hzero
    rw [CacheManager.get_entry f _ now key data now ttl hget hlook]
    rw [if_neg (by omega)]

/-- Witness for C10: the empty key with ttl `-1` succeeds and is instantly
expired; ttl `0` is returned at the same instant. -/
theorem C10_witness :
    (CacheManager.set noFaults ⟨[]⟩ 50 "" (.num 3) (-1)).1 = true ∧
    lsLookup (CacheManager.set noFaults ⟨[]⟩ 50 "" (.num 3) (-1)).2 (nsKey "")
      = some (stringify (entryJson (.num 3) 50 (-1))) ∧
    (CacheManager.get noFaults (CacheManager.set noFaults ⟨[]⟩ 50 "" (.num 3) (-1)).2
      50 "").1 = .val .null ∧
    (CacheManager.get noFaults (CacheManager.set noFaults ⟨[]⟩ 50 "" (.num 3) 0).2
      50 "").1 = .val (.num 3) :=
  ⟨(C10_no_validation noFaults ⟨[]⟩ 50 "" (.num 3) (-1) rfl rfl).1,
   (C10_no_validation noFaults ⟨[]⟩ 50 "" (.num 3) (-1) rfl rfl).2.1,
   (C10_no_validation noFaults ⟨[]⟩ 50 "" (.num 3) (-1) rfl rfl).2.2.1 (by decide) 50
     (by decide),
   (C10_no_validation noFaults ⟨[]⟩ 50 "" (.num 3) 0 rfl rfl).2.2.2 rfl⟩

end CacheSpec
